import Mathlib

/-!
Verification of the TimelessTales chunking-and-reduction pipeline
(`src/summarizer.py`): the `StringSplitter` boundary-search splitter and the
`TextSummarizer` reduction driver, shallowly embedded over `List Char` /
`String` with Python string semantics made explicit.
-/

namespace TimelessTales

/-- Python `str.rfind(sub)` on a list of characters: the highest index `j`
with `s[j : j + len(sub)] == sub`, or `-1` when there is no occurrence.
Mirrors CPython semantics (for the empty pattern it returns `len(s)`). -/
def listRfind (s sub : List Char) : Int :=
  match ((List.range (s.length + 1)).filter
      (fun j => (s.drop j).take sub.length == sub)).getLast? with
  | some j => (j : Int)
  | none => -1

/-- Python slice-endpoint normalisation: `s[:i]` / `s[i:]` use
`max 0 (len + i)` for negative `i` and clamp at `len` otherwise
(the clamping is performed by `List.take`/`List.drop` themselves). -/
def pySliceIdx (i : Int) (len : Nat) : Nat :=
  if i < 0 then ((len : Int) + i).toNat else i.toNat

/-- `StringSplitter._find_split_index` (src/summarizer.py lines 58-88),
translated clause by clause:

* `min_len = int(mlen * 0.80)`, rendered as `4 * mlen / 5`; the source
  computes the product in IEEE-754 double precision, which agrees with the
  exact floor for every concrete size used below, and none of the general
  theorems in this file depend on the value of `min_len`;
* `index = string[min_len:mlen].rfind("\n\n") + min_len`, returned when
  `index > 0` — note that a failed `rfind` yields `-1`, so this branch
  returns `min_len - 1` whenever `min_len ≥ 2`, found or not;
* the same for a single `"\n"`;
* `index = string[:mlen].rfind(" ")`, returned when `index > 0`;
* otherwise `max_chunk_length - 1`. -/
def findSplitIndex (mlen : Nat) (s : List Char) : Int :=
  let min_len : Nat := 4 * mlen / 5
  let window : List Char := (s.take mlen).drop min_len
  let i1 : Int := listRfind window ['\n', '\n'] + (min_len : Int)
  if 0 < i1 then i1
  else
    let i2 : Int := listRfind window ['\n'] + (min_len : Int)
    if 0 < i2 then i2
    else
      let i3 : Int := listRfind (s.take mlen) [' ']
      if 0 < i3 then i3
      else (mlen : Int) - 1

/-- The `while len(current_string) > max_chunk_length` loop of
`StringSplitter.split_string` (src/summarizer.py lines 44-52), with an
explicit fuel bound on the number of iterations; `none` models the loop
failing to finish within `fuel` iterations.  Each iteration appends
`current_string[:split_index]` and continues on `current_string[split_index:]`;
when the remainder fits, it is appended only if non-empty. -/
def splitLoop (mlen : Nat) (fuel : Nat) (s : List Char) :
    Option (List (List Char)) :=
  if mlen < s.length then
    match fuel with
    | 0 => none
    | fuel' + 1 =>
      let idx := pySliceIdx (findSplitIndex mlen s) s.length
      (splitLoop mlen fuel' (s.drop idx)).map (fun cs => s.take idx :: cs)
  else if s.isEmpty then some [] else some [s]

/-- `StringSplitter.split_string` for a splitter with
`max_chunk_length = mlen`.  The fuel `s.length` is sufficient whenever the
Python loop terminates (every productive iteration strictly shortens the
remaining string), so a `none` result reflects a diverging run of the
source loop. -/
def split_string (mlen : Nat) (s : List Char) : Option (List (List Char)) :=
  splitLoop mlen s.length s

/-- The splitter object: `StringSplitter.__init__` stores the validated
positive `max_chunk_length`. -/
structure StringSplitter where
  max_chunk_length : Nat

/-- `StringSplitter.__init__` (src/summarizer.py lines 26-30): the argument
is `None` or an integer; anything that is not a positive integer raises
`ValueError("max_chunk_length must be a positive integer.")`. -/
def StringSplitter.mk? (max_chunk_length : Option Int) :
    Except String StringSplitter :=
  match max_chunk_length with
  | some v =>
    if 0 < v then Except.ok ⟨v.toNat⟩
    else Except.error "max_chunk_length must be a positive integer."
  | none => Except.error "max_chunk_length must be a positive integer."

/-- The module-level `prompt__summarize_narrative` string
(src/summarizer.py lines 3-9). -/
def prompt__summarize_narrative : String :=
  "\nfollowing is a narrative. I want to tell this story to a 5 year old, but the text is too long.\nInstead, we want to make a new narrative, where the story is the same but the language is appropriate\nfor a 5 year old and the story is divided into five to eight chapters, where each chapter is just\nlong enough for a bedtime story\n\n"

/-- The summarizer object: `TextSummarizer` holds the system prompt and the
validated chunk-size limit (`self.max_length`, also the bound of
`self.string_splitter`). -/
structure TextSummarizer where
  system_prompt : String
  max_length : Nat

/-- `TextSummarizer.__init__` (src/summarizer.py lines 97-122).
`language_model.max_context_length` is received but, exactly as in the
source, never consulted: the constructor passes `max_length` — `None` by
default — straight to `set_max_length`, whose `StringSplitter(max_length)`
raises unless it is a positive integer.  The system prompt falls back to
the built-in narrative prompt when the custom one is `None` or falsy
(empty). -/
def TextSummarizer.mk? (max_context_length : Int)
    (custom_system_prompt : Option String) (max_length : Option Int) :
    Except String TextSummarizer :=
  match StringSplitter.mk? max_length with
  | Except.error e => Except.error e
  | Except.ok sp =>
    Except.ok
      ⟨(match custom_system_prompt with
        | some p => if p.isEmpty then prompt__summarize_narrative else p
        | none => prompt__summarize_narrative),
       sp.max_chunk_length⟩

/-- `TextSummarizer.summarize` (src/summarizer.py lines 124-155), over an
abstract inference capability given by its two operations.  The second
component of the result instruments the run with the list of prompts
passed to `infer`, in call order, so that call counts and call order are
part of the returned value; the first component is the returned summary.
`none` propagates a diverging `split_string` run. -/
def TextSummarizer.summarize (ts : TextSummarizer)
    (compose_prompt : String → String → String) (infer : String → String)
    (text : String) : Option (String × List String) :=
  let full_text := compose_prompt text ts.system_prompt
  if text.length ≤ ts.max_length then
    some (infer full_text, [full_text])
  else
    match split_string ts.max_length text.data with
    | none => none
    | some chunks =>
      let full_chunks :=
        chunks.map (fun chunk => compose_prompt (String.mk chunk) ts.system_prompt)
      let summaries := full_chunks.map infer
      some (String.intercalate " " summaries, full_chunks)

/-! ### Basic facts about `listRfind` and `findSplitIndex` -/

theorem listRfind_ge_neg_one (s sub : List Char) : -1 ≤ listRfind s sub := by
  unfold listRfind
  cases h : ((List.range (s.length + 1)).filter
      (fun j => (s.drop j).take sub.length == sub)).getLast? with
  | none => simp [h]
  | some j => simp only [h]; omega

theorem listRfind_add_le (s sub : List Char) (h : 0 ≤ listRfind s sub) :
    listRfind s sub + (sub.length : Int) ≤ (s.length : Int) := by
  unfold listRfind at *
  cases hm : ((List.range (s.length + 1)).filter
      (fun j => (s.drop j).take sub.length == sub)).getLast? with
  | none => simp [hm] at h
  | some j =>
    have hmem := List.mem_of_getLast?_eq_some hm
    rw [List.mem_filter] at hmem
    have hj : (s.drop j).take sub.length = sub := by
      have := hmem.2
      simpa using this
    have hlen : ((s.drop j).take sub.length).length = sub.length := by
      rw [hj]
    rw [List.length_take, List.length_drop] at hlen
    have hmin : min sub.length (s.length - j) ≤ s.length - j :=
      Nat.min_le_right _ _
    rw [hlen] at hmin
    have hjr : j ∈ List.range (s.length + 1) := hmem.1
    have hjle : j ≤ s.length := Nat.lt_succ_iff.mp (List.mem_range.mp hjr)
    simp only [hm]
    omega

theorem findSplitIndex_le (mlen : Nat) (s : List Char)
    (hm : 1 ≤ mlen) : findSplitIndex mlen s ≤ (mlen : Int) - 1 := by
  simp only [findSplitIndex]
  have hmin : 4 * mlen / 5 ≤ mlen := by omega
  have hw : ((s.take mlen).drop (4 * mlen / 5)).length + 4 * mlen / 5 ≤ mlen := by
    rw [List.length_drop, List.length_take]
    omega
  have h1g := listRfind_ge_neg_one ((s.take mlen).drop (4 * mlen / 5)) ['\n', '\n']
  have h1a := listRfind_add_le ((s.take mlen).drop (4 * mlen / 5)) ['\n', '\n']
  have h2g := listRfind_ge_neg_one ((s.take mlen).drop (4 * mlen / 5)) ['\n']
  have h2a := listRfind_add_le ((s.take mlen).drop (4 * mlen / 5)) ['\n']
  have h3g := listRfind_ge_neg_one (s.take mlen) [' ']
  have h3a := listRfind_add_le (s.take mlen) [' ']
  have h3w : (s.take mlen).length ≤ mlen := by
    rw [List.length_take]; omega
  simp only [List.length_cons, List.length_nil] at h1a h2a h3a
  split
  · rename_i h1
    rcases Int.lt_or_le (listRfind ((s.take mlen).drop (4 * mlen / 5)) ['\n', '\n']) 0 with hn | hp
    · omega
    · have := h1a hp
      omega
  · split
    · rename_i h2
      rcases Int.lt_or_le (listRfind ((s.take mlen).drop (4 * mlen / 5)) ['\n']) 0 with hn | hp
      · omega
      · have := h2a hp
        omega
    · split
      · rename_i h3
        have := h3a (by omega)
        omega
      · omega

theorem findSplitIndex_pos (mlen : Nat) (s : List Char)
    (hm : 2 ≤ mlen) : 1 ≤ findSplitIndex mlen s := by
  simp only [findSplitIndex]
  split
  · omega
  · split
    · omega
    · split
      · omega
      · omega

theorem findSplitIndex_nonneg (mlen : Nat) (s : List Char)
    (hm : 1 ≤ mlen) : 0 ≤ findSplitIndex mlen s := by
  simp only [findSplitIndex]
  split
  · omega
  · split
    · omega
    · split
      · omega
      · omega

theorem pyIdx_findSplit_le (mlen len : Nat) (s : List Char)
    (hm : 1 ≤ mlen) : pySliceIdx (findSplitIndex mlen s) len ≤ mlen - 1 := by
  have h0 := findSplitIndex_nonneg mlen s hm
  have h1 := findSplitIndex_le mlen s hm
  unfold pySliceIdx
  split
  · omega
  · omega

theorem pyIdx_findSplit_pos (mlen len : Nat) (s : List Char)
    (hm : 2 ≤ mlen) : 1 ≤ pySliceIdx (findSplitIndex mlen s) len := by
  have h1 := findSplitIndex_pos mlen s hm
  unfold pySliceIdx
  split
  · omega
  · omega

/-! ### Invariants of the splitting loop -/

theorem splitLoop_join (mlen : Nat) :
    ∀ (fuel : Nat) (s : List Char) (cs : List (List Char)),
      splitLoop mlen fuel s = some cs → cs.flatten = s := by
  intro fuel
  induction fuel with
  | zero =>
    intro s cs h
    simp only [splitLoop] at h
    split at h
    · simp at h
    · split at h
      · rename_i hemp
        cases h
        simp [List.isEmpty_iff.mp hemp]
      · cases h
        simp
  | succ fuel ih =>
    intro s cs h
    simp only [splitLoop] at h
    split at h
    · rcases Option.map_eq_some'.mp h with ⟨rest, hrest, hcs⟩
      subst hcs
      have := ih _ _ hrest
      simp only [List.flatten_cons, this, List.take_append_drop]
    · split at h
      · rename_i hemp
        cases h
        simp [List.isEmpty_iff.mp hemp]
      · cases h
        simp

theorem splitLoop_bound (mlen : Nat) (hm : 1 ≤ mlen) :
    ∀ (fuel : Nat) (s : List Char) (cs : List (List Char)),
      splitLoop mlen fuel s = some cs → ∀ c ∈ cs, c.length ≤ mlen := by
  intro fuel
  induction fuel with
  | zero =>
    intro s cs h c hc
    simp only [splitLoop] at h
    split at h
    · simp at h
    · split at h
      · cases h
        simp at hc
      · cases h
        rename_i hlen _
        simp only [List.mem_singleton] at hc
        subst hc
        omega
  | succ fuel ih =>
    intro s cs h c hc
    simp only [splitLoop] at h
    split at h
    · rcases Option.map_eq_some'.mp h with ⟨rest, hrest, hcs⟩
      subst hcs
      rcases List.mem_cons.mp hc with hc | hc
      · subst hc
        have := pyIdx_findSplit_le mlen s.length s hm
        rw [List.length_take]
        omega
      · exact ih _ _ hrest c hc
    · split at h
      · cases h
        simp at hc
      · cases h
        rename_i hlen _
        simp only [List.mem_singleton] at hc
        subst hc
        omega

theorem splitLoop_total (mlen : Nat) (hm : 2 ≤ mlen) :
    ∀ (fuel : Nat) (s : List Char), s.length ≤ mlen + fuel →
      ∃ cs, splitLoop mlen fuel s = some cs := by
  intro fuel
  induction fuel with
  | zero =>
    intro s hs
    refine ⟨if s.isEmpty then [] else [s], ?_⟩
    simp only [splitLoop]
    rw [if_neg (by omega)]
    split <;> rfl
  | succ fuel ih =>
    intro s hs
    by_cases hlen : mlen < s.length
    · have hidx := pyIdx_findSplit_pos mlen s.length s hm
      set idx := pySliceIdx (findSplitIndex mlen s) s.length with hidxdef
      have hdrop : (s.drop idx).length ≤ mlen + fuel := by
        rw [List.length_drop]
        omega
      rcases ih (s.drop idx) hdrop with ⟨rest, hrest⟩
      refine ⟨s.take idx :: rest, ?_⟩
      simp only [splitLoop]
      rw [if_pos hlen, ← hidxdef, hrest]
      rfl
    · refine ⟨if s.isEmpty then [] else [s], ?_⟩
      simp only [splitLoop]
      rw [if_neg hlen]
      split <;> rfl

theorem splitLoop_ne_nil (mlen : Nat) (hm : 2 ≤ mlen) :
    ∀ (fuel : Nat) (s : List Char) (cs : List (List Char)),
      splitLoop mlen fuel s = some cs → ∀ c ∈ cs, c ≠ [] := by
  intro fuel
  induction fuel with
  | zero =>
    intro s cs h c hc
    simp only [splitLoop] at h
    split at h
    · simp at h
    · split at h
      · cases h
        simp at hc
      · cases h
        rename_i hemp
        simp only [List.mem_singleton] at hc
        subst hc
        exact fun hnil => hemp (by simp [hnil])
  | succ fuel ih =>
    intro s cs h c hc
    simp only [splitLoop] at h
    split at h
    · rename_i hlen
      rcases Option.map_eq_some'.mp h with ⟨rest, hrest, hcs⟩
      subst hcs
      rcases List.mem_cons.mp hc with hc | hc
      · subst hc
        have hidx := pyIdx_findSplit_pos mlen s.length s hm
        intro hnil
        have := congrArg List.length hnil
        rw [List.length_take] at this
        simp only [List.length_nil] at this
        omega
      · exact ih _ _ hrest c hc
    · split at h
      · cases h
        simp at hc
      · cases h
        rename_i hemp
        simp only [List.mem_singleton] at hc
        subst hc
        exact fun hnil => hemp (by simp [hnil])

/-- The loop of `split_string` with limit `1` never makes progress on a
string of length at least two: the chosen split index is `0`, so no fuel
bound is ever enough — the Python loop runs forever. -/
theorem splitLoop_stuck_at_limit_one :
    ∀ fuel : Nat, splitLoop 1 fuel ['a', 'b'] = none := by
  intro fuel
  induction fuel with
  | zero => rfl
  | succ fuel ih =>
    have hidx : pySliceIdx (findSplitIndex 1 ['a', 'b']) 2 = 0 := by decide
    simp only [splitLoop, List.length_cons, List.length_nil]
    rw [if_pos (by omega)]
    simp only [hidx, List.drop_zero]
    rw [ih]
    rfl

/-! ### The claims -/

/-- Claim C1: the spec and the repository's own test
`test_text_summarizer_init` state that constructing the summarizer without
an explicit chunk-size limit succeeds and adopts the capability's
`max_context_length` (4000 in the test); the code instead forwards the
default `None` to `StringSplitter`, which rejects it, and never reads
`max_context_length`. -/
theorem summarizer_default_limit_errors :
    TextSummarizer.mk? 4000 none none =
      Except.error "max_chunk_length must be a positive integer." := by rfl

/-- Claim C2: for every string and limit, whenever the splitting loop
returns, the concatenation of the returned chunks, in order, is exactly
the input — no characters dropped or duplicated. -/
theorem split_roundtrip (s : List Char) (L : Nat) (hL : 0 < L)
    (cs : List (List Char)) (h : split_string L s = some cs) :
    cs.flatten = s :=
  splitLoop_join L s.length s cs h

theorem split_roundtrip_witness :
    split_string 2 ['a', 'b', 'c'] = some [['a'], ['b', 'c']] ∧
      ([['a'], ['b', 'c']] : List (List Char)).flatten = ['a', 'b', 'c'] :=
  ⟨by decide, split_roundtrip ['a', 'b', 'c'] 2 (by decide)
    [['a'], ['b', 'c']] (by decide)⟩

/-- Claim C3: with limit 10 the window is positions 8..9; the input holds a
single line-break at position 8 and no double line-break, so the claim puts
the cut immediately after the line-break (first chunk `"abcdefgh\n"`).  The
code instead cuts at index 7: the failed `rfind("\n\n")` yields `-1`, and
`-1 + min_len = 7` slips past the `index > 0` test, so the first chunk is
`"abcdefg"` and does not end with the line-break. -/
theorem split_single_newline_cut_short :
    split_string 10 ['a', 'b', 'c', 'd', 'e', 'f', 'g', 'h', '\n', 'i', 'j', 'k'] =
        some [['a', 'b', 'c', 'd', 'e', 'f', 'g'], ['h', '\n', 'i', 'j', 'k']] ∧
      (['a', 'b', 'c', 'd', 'e', 'f', 'g'] : List Char).getLast? ≠ some '\n' := by
  decide

/-- Claim C4: with limit 10 the window is positions 8..9, occupied by a
double line-break; the claim (and the class docstring's example) cut
immediately after it, making `"abcdefgh\n\n"` the first chunk.  The code
returns `rfind`'s start index 8, so the double line-break opens the second
chunk instead of closing the first. -/
theorem split_double_newline_cut_before :
    split_string 10 ['a', 'b', 'c', 'd', 'e', 'f', 'g', 'h', '\n', '\n', 'x', 'y', 'z'] =
        some [['a', 'b', 'c', 'd', 'e', 'f', 'g', 'h'], ['\n', '\n', 'x', 'y', 'z']] ∧
      (['a', 'b', 'c', 'd', 'e', 'f', 'g', 'h'] : List Char).getLast? ≠ some '\n' := by
  decide

/-- Claim C5: eleven boundary-free characters with limit 10: the claim (and
the class docstring) require a hard cut at exactly 10; the code produces a
first chunk of length 7 (`min_len - 1`, from the missed-`rfind`
fall-through), and even its explicit fallback would return
`max_chunk_length - 1 = 9`. -/
theorem split_boundary_free_cut_short :
    split_string 10 ['a', 'b', 'c', 'd', 'e', 'f', 'g', 'h', 'i', 'j', 'k'] =
        some [['a', 'b', 'c', 'd', 'e', 'f', 'g'], ['h', 'i', 'j', 'k']] ∧
      (['a', 'b', 'c', 'd', 'e', 'f', 'g'] : List Char).length = 7 := by
  decide

/-- Claim C6: every chunk returned by the splitter has length at most the
limit. -/
theorem split_chunk_length_le (s : List Char) (L : Nat) (hL : 0 < L)
    (cs : List (List Char)) (h : split_string L s = some cs) :
    ∀ c ∈ cs, c.length ≤ L :=
  splitLoop_bound L hL s.length s cs h

theorem split_chunk_length_le_witness :
    split_string 3 ['a', 'b', 'c', 'd'] = some [['a'], ['b', 'c', 'd']] ∧
      ∀ c ∈ ([['a'], ['b', 'c', 'd']] : List (List Char)), c.length ≤ 3 :=
  ⟨by decide, split_chunk_length_le ['a', 'b', 'c', 'd'] 3 (by decide)
    [['a'], ['b', 'c', 'd']] (by decide)⟩

/-- Claim C7 counterexample: at limit 1 the loop never terminates on the
two-character input `"ab"`: the split index is 0, so no amount of fuel
(here the canonical `s.length`) yields a result — the claim's "every
positive integer limit" fails at `L = 1`. -/
theorem split_limit_one_diverges : split_string 1 ['a', 'b'] = none := by
  decide

/-- Claim C7 (amended): for every limit of at least 2, the splitting loop
terminates on every input — each iteration picks a split index of at least
1 and strictly shortens the remaining suffix. -/
theorem split_terminates (s : List Char) (L : Nat) (hL : 2 ≤ L) :
    ∃ cs, split_string L s = some cs :=
  splitLoop_total L hL s.length s (by omega)

theorem split_terminates_witness :
    ∃ cs, split_string 2 ['x', 'y', 'z'] = some cs :=
  split_terminates ['x', 'y', 'z'] 2 (by decide)

/-- Claim C8: when the text fits within `max_length` (the comparison is on
the original text, not the composed prompt), `summarize` makes exactly one
inference call, on the prompt composed from the whole text and the system
prompt, and returns its result verbatim. -/
theorem summarize_single_call (ts : TextSummarizer)
    (compose_prompt : String → String → String) (infer : String → String)
    (text : String) (h : text.length ≤ ts.max_length) :
    ts.summarize compose_prompt infer text =
      some (infer (compose_prompt text ts.system_prompt),
            [compose_prompt text ts.system_prompt]) := by
  simp only [TextSummarizer.summarize, if_pos h]

theorem summarize_single_call_witness :
    TextSummarizer.summarize ⟨"SYS", 4000⟩ (fun m s => s ++ m)
        (fun _ => "Mocked summary") "This is a long text to be summarized." =
      some ("Mocked summary",
            ["SYS" ++ "This is a long text to be summarized."]) :=
  summarize_single_call ⟨"SYS", 4000⟩ (fun m s => s ++ m)
    (fun _ => "Mocked summary") "This is a long text to be summarized."
    (by decide)

/-- Claim C9: when the text exceeds `max_length` (and the limit is at least
2, so that the splitter terminates), `summarize` splits the original text,
composes one prompt per chunk, infers once per chunk in left-to-right chunk
order, and returns the per-chunk results joined with single spaces. -/
theorem summarize_multi_call (ts : TextSummarizer)
    (compose_prompt : String → String → String) (infer : String → String)
    (text : String) (h2 : 2 ≤ ts.max_length)
    (hlen : ts.max_length < text.length) :
    ∃ cs, split_string ts.max_length text.data = some cs ∧
      ts.summarize compose_prompt infer text =
        some (String.intercalate " "
                (cs.map (fun c => infer (compose_prompt (String.mk c) ts.system_prompt))),
              cs.map (fun c => compose_prompt (String.mk c) ts.system_prompt)) := by
  obtain ⟨cs, hcs⟩ :=
    splitLoop_total ts.max_length h2 text.data.length text.data (by omega)
  refine ⟨cs, hcs, ?_⟩
  simp only [TextSummarizer.summarize,
    if_neg (by omega : ¬ text.length ≤ ts.max_length)]
  rw [show split_string ts.max_length text.data = some cs from hcs]
  simp [List.map_map, Function.comp_def]

theorem summarize_multi_call_witness :
    ∃ cs, split_string 20
        "This is a long test input text with multiple chunks.".data = some cs ∧
      TextSummarizer.summarize ⟨"SYS", 20⟩ (fun m s => s ++ m)
          (fun _ => "Mocked summary")
          "This is a long test input text with multiple chunks." =
        some (String.intercalate " "
                (cs.map (fun _ => "Mocked summary")),
              cs.map (fun c => "SYS" ++ String.mk c)) :=
  summarize_multi_call ⟨"SYS", 20⟩ (fun m s => s ++ m)
    (fun _ => "Mocked summary")
    "This is a long test input text with multiple chunks."
    (by decide) (by decide)

/-- Claim C10: with a limit of at least 2, no chunk returned by the
splitter is empty — every loop iteration cuts at an index of at least 1,
and the trailing remainder is appended only when non-empty. -/
theorem split_no_empty_chunk (s : List Char) (L : Nat) (hL : 2 ≤ L)
    (cs : List (List Char)) (h : split_string L s = some cs) :
    ∀ c ∈ cs, c ≠ [] :=
  splitLoop_ne_nil L hL s.length s cs h

theorem split_no_empty_chunk_witness :
    split_string 4 ['a', 'b', 'c', 'd', 'e', 'f'] =
        some [['a', 'b'], ['c', 'd', 'e', 'f']] ∧
      ∀ c ∈ ([['a', 'b'], ['c', 'd', 'e', 'f']] : List (List Char)), c ≠ [] :=
  ⟨by decide, split_no_empty_chunk ['a', 'b', 'c', 'd', 'e', 'f'] 4 (by decide)
    [['a', 'b'], ['c', 'd', 'e', 'f']] (by decide)⟩

end TimelessTales
